import Mathlib

/-!
Shallow embedding of the kumonasset Asset Registry Service
(src/api_routes.py over the SQLAlchemy models of src/database.py).

The relational store is modelled as lists of rows; SQLAlchemy's
`query(...).filter(...).first()` becomes `List.find?`, `.all()` a
`List.filter`, a bulk `.update(...)` a `List.map`, and `db.add` an
append with an id drawn from a per-table counter.  Timestamps are
modelled as a calendar day (`Nat`) plus a time-of-day (`Nat`);
`func.date(x)` is the `day` projection and `datetime.utcnow()` /
`date.today()` is a `now : DateTime` parameter of each operation.
`pc_master.asset_number` carries `unique=True` in database.py, so an
INSERT that duplicates an existing row's asset number (deleted or not)
fails at the store with an IntegrityError; that outcome is the
`integrityError` case below.  The `last_updated_at` column declares
`onupdate=datetime.utcnow`, so every UPDATE to a `pc_master` row
refreshes it even when the handler does not assign it explicitly.
-/

/-- A timestamp: calendar day plus time within the day. -/
structure DateTime where
  day : Nat
  tod : Nat
deriving DecidableEq, Repr

/-- Chronological order on timestamps (day-major). -/
def DateTime.le (a b : DateTime) : Bool :=
  Nat.blt a.day b.day || (Nat.beq a.day b.day && Nat.ble a.tod b.tod)

/-- Row of table `pc_master` (class PCMaster, src/database.py). -/
structure PCMaster where
  id : Nat
  asset_number : String
  pc_management_number : String
  location_name : String
  employee_number : String
  registered_at : DateTime
  last_updated_at : DateTime
  is_deleted : Bool
deriving DecidableEq, Repr

/-- Row of table `survey_records` (class SurveyRecord, src/database.py). -/
structure SurveyRecord where
  id : Nat
  asset_number : String
  survey_date : DateTime
  completed_at : DateTime
deriving DecidableEq, Repr

/-- Row of table `user_change_history` (class UserChangeHistory, src/database.py). -/
structure UserChangeHistory where
  id : Nat
  asset_number : String
  old_employee_number : String
  new_employee_number : String
  changed_at : DateTime
deriving DecidableEq, Repr

/-- The relational store: the three tables plus id sequences. -/
structure DB where
  pcs : List PCMaster
  surveys : List SurveyRecord
  userChanges : List UserChangeHistory
  nextPcId : Nat
  nextSurveyId : Nat
  nextUcId : Nat
deriving DecidableEq, Repr

/-- The store right after `init_db`: three empty tables. -/
def emptyDB : DB := ⟨[], [], [], 1, 1, 1⟩

/-- Error outcomes surfaced by the handlers.  `notFound` is HTTP 404;
`conflict` and `invalidArgument` are both raised as HTTP 400 in the
source (duplicate asset number / duplicate same-day survey vs. a
malformed date); `integrityError` is the store rejecting an INSERT that
violates the `unique=True` constraint on `pc_master.asset_number`
(an exception no handler catches). -/
inductive ApiError
  | notFound
  | conflict
  | invalidArgument
  | integrityError
deriving DecidableEq, Repr

/-- Python truthiness of an `Optional[str]` field: `None` and `""` are
falsy, every other string is truthy. -/
def pyTruthy : Option String → Bool
  | none => false
  | some s => !(s == "")

/-- Replace the first element satisfying `p` by its image under `f`
(the effect of mutating the ORM object returned by `.first()`). -/
def replaceFirst (p : α → Bool) (f : α → α) : List α → List α
  | [] => []
  | x :: xs => if p x then f x :: xs else x :: replaceFirst p f xs

/-- The row predicate `asset_number == n AND is_deleted == False` used
by every `.first()` lookup of api_routes.py. -/
def activeP (n : String) (pc : PCMaster) : Bool :=
  pc.asset_number == n && !pc.is_deleted

/-- The row predicate `asset_number == n` (no deletion filter). -/
def numberP (n : String) (pc : PCMaster) : Bool :=
  pc.asset_number == n

/-- The survey-row predicate `asset_number == n AND date(survey_date) == d`. -/
def surveyOnP (n : String) (d : Nat) (s : SurveyRecord) : Bool :=
  s.asset_number == n && s.survey_date.day == d

/-- Body of `PCRegisterRequest`. -/
structure PCRegisterRequest where
  asset_number : String
  pc_management_number : String
  location_name : String
  employee_number : String
deriving DecidableEq, Repr

/-- Body of `PCUpdateInfoRequest`: all fields optional. -/
structure PCUpdateInfoRequest where
  new_asset_number : Option String := none
  pc_management_number : Option String := none
  location_name : Option String := none
  employee_number : Option String := none
deriving DecidableEq, Repr

/-- Body of `PCUpdateUserRequest`. -/
structure PCUpdateUserRequest where
  new_employee_number : String
deriving DecidableEq, Repr

/-- Body of `SurveyCompleteRequest`. -/
structure SurveyCompleteRequest where
  asset_number : String
deriving DecidableEq, Repr

/-- The `.first()` lookup used throughout api_routes.py: the first
non-deleted row with the given asset number. -/
def findActive (pcs : List PCMaster) (n : String) : Option PCMaster :=
  pcs.find? (activeP n)

/-- The mutations of the revival branch of `register_pc`. -/
def reviveF (req : PCRegisterRequest) (now : DateTime) (pc : PCMaster) : PCMaster :=
  { pc with
    is_deleted := false
    pc_management_number := req.pc_management_number
    location_name := req.location_name
    employee_number := req.employee_number
    last_updated_at := now }

/-- The mutations of `update_user` on the asset row. -/
def reassignF (e : String) (now : DateTime) (pc : PCMaster) : PCMaster :=
  { pc with employee_number := e, last_updated_at := now }

/-- The mutations of `delete_pc` on the asset row: the handler's
`is_deleted = True` plus the `onupdate` refresh of `last_updated_at`. -/
def softDeleteF (now : DateTime) (pc : PCMaster) : PCMaster :=
  { pc with is_deleted := true, last_updated_at := now }

/-- POST /api/v1/pc/register (`register_pc`, src/api_routes.py).
The handler looks up a row with the requested number filtered by
`is_deleted == False`; when one is found it checks `existing.is_deleted`
(the "revival" branch) and otherwise raises 400.  When none is found it
INSERTs a fresh row, which the store accepts only if no row at all —
deleted included — carries that asset number (`unique=True`). -/
def register_pc (db : DB) (now : DateTime) (req : PCRegisterRequest) :
    Except ApiError DB :=
  match findActive db.pcs req.asset_number with
  | some existing =>
    if existing.is_deleted then
      let pcs' := replaceFirst (activeP req.asset_number) (reviveF req now) db.pcs
      .ok { db with pcs := pcs' }
    else
      .error .conflict
  | none =>
    if db.pcs.any (numberP req.asset_number) then
      .error .integrityError
    else
      let row : PCMaster := ⟨db.nextPcId, req.asset_number, req.pc_management_number,
        req.location_name, req.employee_number, now, now, false⟩
      .ok { db with pcs := db.pcs ++ [row], nextPcId := db.nextPcId + 1 }

/-- GET /api/v1/pc/\x7basset_number\x7d (`get_pc_info`, src/api_routes.py). -/
def get_pc_info (db : DB) (asset_number : String) : Except ApiError PCMaster :=
  match findActive db.pcs asset_number with
  | none => .error .notFound
  | some pc => .ok pc

/-- PUT /api/v1/pc/\x7basset_number\x7d/user (`update_user`, src/api_routes.py):
append a `UserChangeHistory` row capturing old and new employee numbers,
then update the asset's `employee_number` and `last_updated_at`, in one
transaction. -/
def update_user (db : DB) (now : DateTime) (asset_number : String)
    (req : PCUpdateUserRequest) : Except ApiError DB :=
  match findActive db.pcs asset_number with
  | none => .error .notFound
  | some pc =>
    let uc : UserChangeHistory :=
      ⟨db.nextUcId, asset_number, pc.employee_number, req.new_employee_number, now⟩
    let pcs' := replaceFirst (activeP asset_number)
      (reassignF req.new_employee_number now) db.pcs
    .ok { db with
      userChanges := db.userChanges ++ [uc]
      nextUcId := db.nextUcId + 1
      pcs := pcs' }

/-- The field updates `update_pc_info` applies to the found row: the
rename (when taken), then each optional field guarded by Python
truthiness, then the `last_updated_at` refresh. -/
def applyInfoUpdate (now : DateTime) (req : PCUpdateInfoRequest)
    (rename : Option String) (pc : PCMaster) : PCMaster :=
  let pc := match rename with
    | some newNum => { pc with asset_number := newNum }
    | none => pc
  let pc := if pyTruthy req.pc_management_number then
      { pc with pc_management_number := req.pc_management_number.getD "" } else pc
  let pc := if pyTruthy req.location_name then
      { pc with location_name := req.location_name.getD "" } else pc
  let pc := if pyTruthy req.employee_number then
      { pc with employee_number := req.employee_number.getD "" } else pc
  { pc with last_updated_at := now }

/-- PUT /api/v1/admin/pc/\x7basset_number\x7d/info (`update_pc_info`,
src/api_routes.py).  When `new_asset_number` is truthy and differs from
the current number: a uniqueness check over ALL rows (no `is_deleted`
filter), then a manual cascade rewriting `asset_number` on every
matching `SurveyRecord` and `UserChangeHistory` row, then the asset row
itself — all before the single commit. -/
def update_pc_info (db : DB) (now : DateTime) (asset_number : String)
    (req : PCUpdateInfoRequest) : Except ApiError DB :=
  match findActive db.pcs asset_number with
  | none => .error .notFound
  | some _ =>
    if pyTruthy req.new_asset_number && !(req.new_asset_number.getD "" == asset_number) then
      let newNum := req.new_asset_number.getD ""
      match db.pcs.find? (numberP newNum) with
      | some _ => .error .conflict
      | none =>
        let surveys' := db.surveys.map (fun s =>
          if s.asset_number == asset_number then { s with asset_number := newNum } else s)
        let userChanges' := db.userChanges.map (fun u =>
          if u.asset_number == asset_number then { u with asset_number := newNum } else u)
        let pcs' := replaceFirst (activeP asset_number)
          (applyInfoUpdate now req (some newNum)) db.pcs
        .ok { db with surveys := surveys', userChanges := userChanges', pcs := pcs' }
    else
      let pcs' := replaceFirst (activeP asset_number)
        (applyInfoUpdate now req none) db.pcs
      .ok { db with pcs := pcs' }

/-- POST /api/v1/survey/complete (`complete_survey`, src/api_routes.py). -/
def complete_survey (db : DB) (now : DateTime) (req : SurveyCompleteRequest) :
    Except ApiError DB :=
  match findActive db.pcs req.asset_number with
  | none => .error .notFound
  | some _ =>
    match db.surveys.find? (surveyOnP req.asset_number now.day) with
    | some _ => .error .conflict
    | none =>
      .ok { db with
        surveys := db.surveys ++ [⟨db.nextSurveyId, req.asset_number, now, now⟩]
        nextSurveyId := db.nextSurveyId + 1 }

/-- One row of the GET /api/v1/admin/pcs response. -/
structure PCListEntry where
  id : Nat
  asset_number : String
  pc_management_number : String
  location_name : String
  employee_number : String
  registered_at : DateTime
  last_updated_at : DateTime
  surveyed_today : Bool
deriving DecidableEq, Repr

/-- GET /api/v1/admin/pcs (`get_all_pcs`, src/api_routes.py): all
non-deleted assets, each annotated with whether a survey exists today. -/
def get_all_pcs (db : DB) (now : DateTime) : List PCListEntry :=
  (db.pcs.filter (fun pc => !pc.is_deleted)).map (fun pc =>
    ⟨pc.id, pc.asset_number, pc.pc_management_number, pc.location_name,
     pc.employee_number, pc.registered_at, pc.last_updated_at,
     db.surveys.any (surveyOnP pc.asset_number now.day)⟩)

/-- Round-half-to-even on the integers-of-halves boundary, the rounding
Python's builtin `round` applies. -/
def roundHalfEven (q : ℚ) : ℤ :=
  let f := ⌊q⌋
  if q - f < 1/2 then f
  else if 1/2 < q - f then f + 1
  else if f % 2 = 0 then f else f + 1

/-- Python's `round(q, 2)`. -/
def pyRound2 (q : ℚ) : ℚ := (roundHalfEven (q * 100) : ℚ) / 100

/-- The `SurveyStatusResponse` pydantic model. -/
structure SurveyStatusResponse where
  total : Nat
  completed : Nat
  remaining : Int
  completion_rate : ℚ
deriving DecidableEq, Repr

/-- GET /api/v1/admin/survey-status (`get_survey_status`,
src/api_routes.py).  `survey_date` arrives already parsed (`none` means
the query parameter was absent, in which case today's date is used).
`completed` embeds the SQL
`count(distinct SurveyRecord.asset_number)` over the inner join with
`PCMaster` filtered to the target date and `is_deleted == False`. -/
def get_survey_status (db : DB) (today : DateTime) (survey_date : Option Nat) :
    SurveyStatusResponse :=
  let total := (db.pcs.filter (fun pc => !pc.is_deleted)).length
  let target := survey_date.getD today.day
  let completed := (((db.surveys.filter (fun s =>
      s.survey_date.day == target &&
      db.pcs.any (activeP s.asset_number))).map
      (fun s => s.asset_number)).dedup).length
  { total := total
    completed := completed
    remaining := (total : Int) - (completed : Int)
    completion_rate := pyRound2 (if 0 < total then (completed : ℚ) / (total : ℚ) * 100 else 0) }

/-- One row of the GET /api/v1/admin/survey-history response (the
`strftime` presentation of the timestamp is kept as the timestamp). -/
structure HistoryEntry where
  survey_date : DateTime
  asset_number : String
  pc_management_number : String
  location_name : String
  employee_number : String
deriving DecidableEq, Repr

/-- Descending order on survey timestamps (`order_by(survey_date.desc())`). -/
def dtGe (a b : DateTime) : Bool := DateTime.le b a

/-- Stable insertion of `x` into a list sorted by `le`. -/
def insertSorted (le : α → α → Bool) (x : α) : List α → List α
  | [] => [x]
  | y :: ys => if le x y then x :: y :: ys else y :: insertSorted le x ys

/-- Stable insertion sort, modelling the SQL ORDER BY. -/
def sortBy (le : α → α → Bool) : List α → List α
  | [] => []
  | x :: xs => insertSorted le x (sortBy le xs)

/-- The survey-history row built from a survey event and the asset row
the join matched. -/
def displayOf (s : SurveyRecord) (p : PCMaster) : HistoryEntry :=
  ⟨s.survey_date, s.asset_number, p.pc_management_number,
   p.location_name, p.employee_number⟩

/-- The LEFT OUTER JOIN row(s) a single survey event contributes: every
`pc_master` row sharing its asset number, or a single row with the
placeholder values `"-"` / `"정보 없음"` when none matches. -/
def historyRow (pcs : List PCMaster) (s : SurveyRecord) : List HistoryEntry :=
  match pcs.filter (numberP s.asset_number) with
  | [] => [⟨s.survey_date, s.asset_number, "-", "정보 없음", "-"⟩]
  | m :: ms => (m :: ms).map (displayOf s)

/-- GET /api/v1/admin/survey-history (`get_survey_history`,
src/api_routes.py).  The two dates arrive as the result of
`datetime.strptime(_, "%Y-%m-%d")`: `none` means the string did not
parse, which the handler turns into HTTP 400. -/
def get_survey_history (db : DB) (start_date end_date : Option Nat) :
    Except ApiError (List HistoryEntry) :=
  match start_date, end_date with
  | some s, some e =>
    .ok ((sortBy (fun a b => dtGe a.survey_date b.survey_date)
      (db.surveys.filter (fun sv =>
        Nat.ble s sv.survey_date.day && Nat.ble sv.survey_date.day e))).flatMap
      (historyRow db.pcs))
  | _, _ => .error .invalidArgument

/-- DELETE /api/v1/admin/pc/\x7basset_number\x7d (`delete_pc`,
src/api_routes.py): soft delete.  The handler assigns only
`pc.is_deleted = True`; the UPDATE it commits also refreshes
`last_updated_at` through the column's `onupdate=datetime.utcnow`
default declared in src/database.py. -/
def delete_pc (db : DB) (now : DateTime) (asset_number : String) :
    Except ApiError DB :=
  match findActive db.pcs asset_number with
  | none => .error .notFound
  | some _ =>
    let pcs' := replaceFirst (activeP asset_number) (softDeleteF now) db.pcs
    .ok { db with pcs := pcs' }

/-- The GET /api/v1/admin/backup response. -/
structure BackupData where
  backup_date : DateTime
  pcs : List PCMaster
  surveys : List SurveyRecord
  user_changes : List UserChangeHistory
deriving DecidableEq, Repr

/-- GET /api/v1/admin/backup (`backup_all_data`, src/api_routes.py):
non-deleted assets plus the survey and user-change tables unfiltered. -/
def backup_all_data (db : DB) (now : DateTime) : BackupData :=
  ⟨now, db.pcs.filter (fun pc => !pc.is_deleted), db.surveys, db.userChanges⟩

/-- One request to the service (the operations of §4.1 of the spec). -/
inductive Op
  | register (req : PCRegisterRequest)
  | getPc (asset_number : String)
  | reassignUser (asset_number : String) (req : PCUpdateUserRequest)
  | updateInfo (asset_number : String) (req : PCUpdateInfoRequest)
  | survey (req : SurveyCompleteRequest)
  | listPcs
  | status (survey_date : Option Nat)
  | history (start_date end_date : Option Nat)
  | deletePc (asset_number : String)
  | backup
deriving DecidableEq, Repr

/-- Resulting store of a fallible handler: an HTTPException aborts the
request before the commit, leaving the store as it was. -/
def stepDB (db : DB) : Except ApiError DB → DB
  | .ok db' => db'
  | .error _ => db

/-- State transition of one request. -/
def step (db : DB) (now : DateTime) : Op → DB
  | .register req => stepDB db (register_pc db now req)
  | .getPc _ => db
  | .reassignUser n req => stepDB db (update_user db now n req)
  | .updateInfo n req => stepDB db (update_pc_info db now n req)
  | .survey req => stepDB db (complete_survey db now req)
  | .listPcs => db
  | .status _ => db
  | .history _ _ => db
  | .deletePc n => stepDB db (delete_pc db now n)
  | .backup => db

/-! ### Generic lemmas about the store primitives -/

theorem replaceFirst_length (p : α → Bool) (f : α → α) (l : List α) :
    (replaceFirst p f l).length = l.length := by
  induction l with
  | nil => rfl
  | cons x xs ih =>
    simp only [replaceFirst]
    cases hx : p x
    · simp [ih]
    · simp

theorem replaceFirst_decomp (p : α → Bool) (l : List α) (x : α)
    (hf : l.find? p = some x) :
    ∃ l1 l2, l = l1 ++ x :: l2 ∧ (∀ y ∈ l1, p y = false) ∧ p x = true ∧
      ∀ g : α → α, replaceFirst p g l = l1 ++ g x :: l2 := by
  induction l with
  | nil => simp [List.find?] at hf
  | cons a as ih =>
    cases ha : p a with
    | true =>
      rw [List.find?_cons, ha] at hf
      injection hf with hax
      subst hax
      refine ⟨[], as, rfl, by simp, ha, ?_⟩
      intro g
      simp [replaceFirst, ha]
    | false =>
      rw [List.find?_cons, ha] at hf
      obtain ⟨l1, l2, heq, hl1, hx, hrep⟩ := ih hf
      refine ⟨a :: l1, l2, by simp [heq], ?_, hx, ?_⟩
      · intro y hy
        rcases List.mem_cons.mp hy with rfl | hy
        · exact ha
        · exact hl1 y hy
      · intro g
        simp [replaceFirst, ha, hrep g]

theorem replaceFirst_of_find?_eq_none (p : α → Bool) (f : α → α) (l : List α)
    (h : l.find? p = none) : replaceFirst p f l = l := by
  induction l with
  | nil => rfl
  | cons a as ih =>
    rw [List.find?_cons] at h
    cases ha : p a with
    | true => rw [ha] at h; exact absurd h (by simp)
    | false =>
      rw [ha] at h
      simp only [replaceFirst, ha, Bool.false_eq_true, if_false]
      rw [ih h]

theorem replaceFirst_getElem? (p : α → Bool) (f : α → α) (l : List α) (i : Nat) :
    (replaceFirst p f l)[i]? = l[i]? ∨
      (replaceFirst p f l)[i]? = (l[i]?).map f := by
  induction l generalizing i with
  | nil => left; rfl
  | cons a as ih =>
    simp only [replaceFirst]
    cases ha : p a with
    | true =>
      simp only [Bool.true_eq_false, if_true]
      cases i with
      | zero => right; simp
      | succ j => left; simp
    | false =>
      simp only [Bool.false_eq_true, if_false]
      cases i with
      | zero => left; simp
      | succ j =>
        rcases ih j with h | h
        · left; simpa using h
        · right; simpa using h

theorem find?_replaceFirst_self (p : α → Bool) (f : α → α) (l : List α)
    (hpf : ∀ x, p x = true → p (f x) = true) :
    (replaceFirst p f l).find? p = (l.find? p).map f := by
  induction l with
  | nil => rfl
  | cons a as ih =>
    simp only [replaceFirst]
    cases ha : p a with
    | true =>
      simp only [if_true]
      rw [List.find?_cons_of_pos _ (hpf a ha), List.find?_cons_of_pos _ ha]
      rfl
    | false =>
      simp only [Bool.false_eq_true, if_false]
      rw [List.find?_cons_of_neg _ (by simp [ha]), List.find?_cons_of_neg _ (by simp [ha]), ih]

/-! ### Sorting lemmas -/

theorem insertSorted_perm (le : α → α → Bool) (x : α) (l : List α) :
    List.Perm (insertSorted le x l) (x :: l) := by
  induction l with
  | nil => exact List.Perm.refl _
  | cons y ys ih =>
    simp only [insertSorted]
    cases h : le x y with
    | true => simp
    | false =>
      simp only [Bool.false_eq_true, if_false]
      exact (ih.cons y).trans (List.Perm.swap x y ys)

theorem sortBy_perm (le : α → α → Bool) (l : List α) : List.Perm (sortBy le l) l := by
  induction l with
  | nil => exact List.Perm.refl _
  | cons x xs ih =>
    simp only [sortBy]
    exact (insertSorted_perm le x (sortBy le xs)).trans (ih.cons x)

theorem insertSorted_pairwise (le : α → α → Bool)
    (htrans : ∀ a b c, le a b = true → le b c = true → le a c = true)
    (htotal : ∀ a b, le a b = true ∨ le b a = true)
    (x : α) (l : List α) (hl : l.Pairwise (fun a b => le a b = true)) :
    (insertSorted le x l).Pairwise (fun a b => le a b = true) := by
  induction l with
  | nil => simp [insertSorted]
  | cons y ys ih =>
    rcases List.pairwise_cons.mp hl with ⟨hy, hys⟩
    simp only [insertSorted]
    cases h : le x y with
    | true =>
      simp only [if_true]
      refine List.pairwise_cons.mpr ⟨?_, hl⟩
      intro z hz
      rcases List.mem_cons.mp hz with rfl | hz
      · exact h
      · exact htrans x y z h (hy z hz)
    | false =>
      simp only [Bool.false_eq_true, if_false]
      refine List.pairwise_cons.mpr ⟨?_, ih hys⟩
      intro z hz
      have hz' := (insertSorted_perm le x ys).mem_iff.mp hz
      rcases List.mem_cons.mp hz' with rfl | hz'
      · rcases htotal y z with hyz | hzy
        · exact hyz
        · rw [hzy] at h; exact absurd h (by simp)
      · exact hy z hz'

theorem sortBy_pairwise (le : α → α → Bool)
    (htrans : ∀ a b c, le a b = true → le b c = true → le a c = true)
    (htotal : ∀ a b, le a b = true ∨ le b a = true)
    (l : List α) : (sortBy le l).Pairwise (fun a b => le a b = true) := by
  induction l with
  | nil => simp [sortBy]
  | cons x xs ih =>
    exact insertSorted_pairwise le htrans htotal x (sortBy le xs) ih

theorem DateTime.le_iff (a b : DateTime) :
    DateTime.le a b = true ↔ (a.day < b.day ∨ (a.day = b.day ∧ a.tod ≤ b.tod)) := by
  simp only [DateTime.le, Bool.or_eq_true, Bool.and_eq_true, Nat.blt_eq,
    Nat.ble_eq, Nat.beq_eq]

theorem dtGe_total (a b : DateTime) : dtGe a b = true ∨ dtGe b a = true := by
  simp only [dtGe, DateTime.le_iff]
  omega

theorem dtGe_trans (a b c : DateTime)
    (hab : dtGe a b = true) (hbc : dtGe b c = true) : dtGe a c = true := by
  simp only [dtGe, DateTime.le_iff] at *
  omega

/-! ### Invariants and spec-side predicates -/

/-- Spec §3 invariant: at most one non-deleted `Asset` per
`asset_number` value. -/
def ActiveUnique (db : DB) : Prop :=
  ∀ n : String, db.pcs.countP (activeP n) ≤ 1

/-! ### Concrete stores used as inputs -/

/-- A soft-deleted asset row with number `A1`. -/
def pcA1del : PCMaster := ⟨1, "A1", "M1", "L1", "E1", ⟨0, 0⟩, ⟨0, 0⟩, true⟩

/-- A store whose only row is the soft-deleted `A1`. -/
def dbDeletedA1 : DB := ⟨[pcA1del], [], [], 2, 1, 1⟩

/-- A registration request for the soft-deleted number `A1`. -/
def regReqA1 : PCRegisterRequest := ⟨"A1", "M2", "L2", "E2"⟩

/-- An active asset row with number `A1`. -/
def pcA1 : PCMaster := ⟨1, "A1", "M1", "L1", "E1", ⟨0, 0⟩, ⟨0, 0⟩, false⟩

/-- A user-change audit row referencing `A1`. -/
def ucA1 : UserChangeHistory := ⟨1, "A1", "E0", "E1", ⟨0, 0⟩⟩

/-- A store with the active `A1` and one audit row for it. -/
def dbWithHist : DB := ⟨[pcA1], [], [ucA1], 2, 1, 2⟩

/-- An admin update renaming the asset to `A2`. -/
def renameToA2 : PCUpdateInfoRequest := { new_asset_number := some "A2" }

/-! ### How each operation touches the user-change table -/

/-- Every operation leaves `user_change_history` as it was, appends one
row (`update_user`), or rewrites `asset_number` pointwise on it
(`update_pc_info`'s rename cascade). -/
theorem step_userChanges_shape (db : DB) (now : DateTime) (op : Op) :
    (step db now op).userChanges = db.userChanges ∨
    (∃ uc, (step db now op).userChanges = db.userChanges ++ [uc]) ∨
    (∃ n newNum, (step db now op).userChanges = db.userChanges.map
      (fun u => if u.asset_number == n then { u with asset_number := newNum } else u)) := by
  cases op with
  | register req =>
    simp only [step, register_pc]
    split
    · split <;> simp [stepDB]
    · split <;> simp [stepDB]
  | getPc n => left; rfl
  | reassignUser n req =>
    simp only [step, update_user]
    split
    · simp [stepDB]
    · right; left; exact ⟨_, rfl⟩
  | updateInfo n req =>
    simp only [step, update_pc_info]
    split
    · simp [stepDB]
    · split
      · split
        · simp [stepDB]
        · right; right; exact ⟨n, _, rfl⟩
      · simp [stepDB]
  | survey req =>
    simp only [step, complete_survey]
    split
    · simp [stepDB]
    · split <;> simp [stepDB]
  | listPcs => left; rfl
  | status sd => left; rfl
  | history sd ed => left; rfl
  | deletePc n =>
    simp only [step, delete_pc]
    split <;> simp [stepDB]
  | backup => left; rfl

/-- The audit-row fields C2 is about, as preserved by one request: the
row at index `i` keeps its id, employee numbers and timestamp, and the
table only ever grows. -/
def UserChangeRowsPreserved (db : DB) (now : DateTime) (op : Op) (i : Nat) : Prop :=
  db.userChanges.length ≤ (step db now op).userChanges.length ∧
  ∃ uc uc', db.userChanges[i]? = some uc ∧
    (step db now op).userChanges[i]? = some uc' ∧
    uc'.id = uc.id ∧
    uc'.old_employee_number = uc.old_employee_number ∧
    uc'.new_employee_number = uc.new_employee_number ∧
    uc'.changed_at = uc.changed_at

/-- C1: on a store whose only row with number `A1` is soft-deleted,
`RegisterAsset("A1")` neither revives the row nor fails with `Conflict`:
the duplicate lookup filters on `is_deleted == False`, so the revival
branch guarded by `existing.is_deleted` is unreachable, the handler
proceeds to INSERT a second row with the same number, and the store's
`unique=True` constraint rejects it with an uncaught IntegrityError —
contradicting the claimed revive-or-Conflict dichotomy. -/
theorem c1_register_soft_deleted_neither_revives_nor_conflicts :
    register_pc dbDeletedA1 ⟨5, 0⟩ regReqA1 = .error .integrityError ∧
    register_pc dbDeletedA1 ⟨5, 0⟩ regReqA1 ≠ .error .conflict ∧
    step dbDeletedA1 ⟨5, 0⟩ (Op.register regReqA1) = dbDeletedA1 := by
  have h1 : register_pc dbDeletedA1 ⟨5, 0⟩ regReqA1 = .error .integrityError := rfl
  refine ⟨h1, ?_, rfl⟩
  rw [h1]
  intro hcontra
  exact absurd (Except.error.inj hcontra) (by decide)

/-- C2 fails as stated: `UpdateAssetInfo`'s rename cascade rewrites the
`asset_number` of a pre-existing `UserChangeEvent` row — here renaming
`A1` to `A2` changes the audit row's number from `A1` to `A2`. -/
theorem c2_counterexample_rename_mutates_audit_row :
    dbWithHist.userChanges.map (fun u => u.asset_number) = ["A1"] ∧
    (step dbWithHist ⟨1, 0⟩ (Op.updateInfo "A1" renameToA2)).userChanges.map
      (fun u => u.asset_number) = ["A2"] := by
  refine ⟨by decide, by decide⟩

/-- C2 (amended): `UserChangeEvent` rows are append-only except for the
`asset_number` column, which `UpdateAssetInfo`'s rename cascade may
rewrite: no operation removes a row, and each pre-existing row keeps its
id, `old_employee_number`, `new_employee_number` and `changed_at`. -/
theorem c2_user_change_rows_append_only (db : DB) (now : DateTime) (op : Op)
    (i : Nat) (hi : i < db.userChanges.length) :
    UserChangeRowsPreserved db now op i := by
  have huc : db.userChanges[i]? = some db.userChanges[i] := List.getElem?_eq_getElem hi
  set uc := db.userChanges[i] with huc_def
  rcases step_userChanges_shape db now op with h | ⟨uc1, h⟩ | ⟨n, newNum, h⟩
  · refine ⟨by rw [h], uc, uc, huc, ?_, rfl, rfl, rfl, rfl⟩
    rw [h]; exact huc
  · refine ⟨by rw [h]; simp, uc, uc, huc, ?_, rfl, rfl, rfl, rfl⟩
    rw [h, List.getElem?_append_left hi]; exact huc
  · refine ⟨by rw [h]; simp, uc,
      if uc.asset_number == n then { uc with asset_number := newNum } else uc,
      huc, ?_, ?_, ?_, ?_, ?_⟩
    · rw [h, List.getElem?_map, huc]; rfl
    all_goals cases hb : uc.asset_number == n <;> simp [hb]

/-- Witness for C2 (amended) at a concrete store, request and index. -/
theorem c2_user_change_rows_append_only_witness :
    0 < dbWithHist.userChanges.length ∧
    UserChangeRowsPreserved dbWithHist ⟨1, 0⟩ (Op.updateInfo "A1" renameToA2) 0 :=
  ⟨by decide, c2_user_change_rows_append_only dbWithHist ⟨1, 0⟩
    (Op.updateInfo "A1" renameToA2) 0 (by decide)⟩

/-! ### countP lemmas for the uniqueness invariant -/

theorem countP_replaceFirst_congr (p q : α → Bool) (f : α → α) (l : List α)
    (hq : ∀ x, q (f x) = q x) : (replaceFirst p f l).countP q = l.countP q := by
  induction l with
  | nil => rfl
  | cons a as ih =>
    simp only [replaceFirst]
    cases ha : p a with
    | true =>
      simp only [if_true, List.countP_cons, hq]
    | false =>
      simp only [Bool.false_eq_true, if_false, List.countP_cons, ih]

theorem countP_replaceFirst_le (p q : α → Bool) (f : α → α) (l : List α)
    (hq : ∀ x, q (f x) = true → q x = true) :
    (replaceFirst p f l).countP q ≤ l.countP q := by
  induction l with
  | nil => exact Nat.le_refl _
  | cons a as ih =>
    simp only [replaceFirst]
    cases ha : p a with
    | true =>
      simp only [if_true, List.countP_cons]
      have : (if q (f a) = true then 1 else 0) ≤ (if q a = true then 1 else 0) := by
        by_cases hfa : q (f a) = true
        · simp [hfa, hq a hfa]
        · simp [hfa]
      omega
    | false =>
      simp only [Bool.false_eq_true, if_false, List.countP_cons]
      omega

/-- All field projections of `applyInfoUpdate` at once. -/
theorem applyInfoUpdate_fields (now : DateTime) (req : PCUpdateInfoRequest)
    (r : Option String) (x : PCMaster) :
    (applyInfoUpdate now req r x).asset_number = r.getD x.asset_number ∧
    (applyInfoUpdate now req r x).is_deleted = x.is_deleted ∧
    (applyInfoUpdate now req r x).id = x.id ∧
    (applyInfoUpdate now req r x).registered_at = x.registered_at ∧
    (applyInfoUpdate now req r x).last_updated_at = now ∧
    (applyInfoUpdate now req r x).pc_management_number =
      (if pyTruthy req.pc_management_number then req.pc_management_number.getD ""
       else x.pc_management_number) ∧
    (applyInfoUpdate now req r x).location_name =
      (if pyTruthy req.location_name then req.location_name.getD ""
       else x.location_name) ∧
    (applyInfoUpdate now req r x).employee_number =
      (if pyTruthy req.employee_number then req.employee_number.getD ""
       else x.employee_number) := by
  unfold applyInfoUpdate
  cases r <;> split_ifs <;> simp_all

/-- Reassigning a user never changes the number or deletion flag. -/
theorem activeP_reassignF (n e : String) (now : DateTime) (pc : PCMaster) :
    activeP n (reassignF e now pc) = activeP n pc := rfl

/-- A soft-deleted row is never active. -/
theorem activeP_softDeleteF (n : String) (now : DateTime) (pc : PCMaster) :
    activeP n (softDeleteF now pc) = false := by
  simp [activeP, softDeleteF]

/-- A rename-free info update never changes the number or deletion flag. -/
theorem activeP_applyInfoUpdate_none (n : String) (now : DateTime)
    (req : PCUpdateInfoRequest) (pc : PCMaster) :
    activeP n (applyInfoUpdate now req none pc) = activeP n pc := by
  have hf := applyInfoUpdate_fields now req none pc
  simp [activeP, hf.1, hf.2.1]

/-- Each operation of the service preserves the at-most-one-active-row
per asset number invariant. -/
theorem step_preserves_activeUnique (db : DB) (now : DateTime) (op : Op)
    (h : ActiveUnique db) : ActiveUnique (step db now op) := by
  cases op with
  | register req =>
    simp only [step, register_pc]
    split
    next existing heq =>
      have hp := List.find?_some heq
      have hdel : existing.is_deleted = false := by
        simp only [activeP, Bool.and_eq_true, Bool.not_eq_true'] at hp
        exact hp.2
      rw [hdel]
      simp only [Bool.false_eq_true, if_false]
      exact h
    next heq =>
      split
      next hany => exact h
      next hany =>
        have hforall : ∀ pc ∈ db.pcs, numberP req.asset_number pc = false := by
          intro pc hmem
          by_contra hc
          exact hany (List.any_eq_true.mpr ⟨pc, hmem,
            by revert hc; cases numberP req.asset_number pc <;> simp⟩)
        intro n
        show (db.pcs ++ [(⟨db.nextPcId, req.asset_number, req.pc_management_number,
            req.location_name, req.employee_number, now, now, false⟩ : PCMaster)]).countP
            (activeP n) ≤ 1
        rw [List.countP_append, List.countP_cons, List.countP_nil]
        cases hn : (req.asset_number == n) with
        | false =>
          have hq : activeP n (⟨db.nextPcId, req.asset_number, req.pc_management_number,
              req.location_name, req.employee_number, now, now, false⟩ : PCMaster) = false := by
            simp [activeP, hn]
          rw [hq]
          simpa using h n
        | true =>
          have hn' : req.asset_number = n := eq_of_beq hn
          have hzero : db.pcs.countP (activeP n) = 0 := by
            refine List.countP_eq_zero.mpr ?_
            intro pc hmem
            have hm := hforall pc hmem
            subst hn'
            simp only [activeP, numberP] at hm ⊢
            simp [hm]
          rw [hzero]
          split <;> omega
  | getPc n => exact h
  | reassignUser na req =>
    simp only [step, update_user]
    split
    · exact h
    next pc heq =>
      intro n
      show (replaceFirst (activeP na) (reassignF req.new_employee_number now)
        db.pcs).countP (activeP n) ≤ 1
      rw [countP_replaceFirst_congr _ _ _ _ (fun x => activeP_reassignF n _ now x)]
      exact h n
  | updateInfo na req =>
    simp only [step, update_pc_info]
    split
    · exact h
    next pc0 heq =>
      split
      next hrename =>
        split
        next hfound2 => exact h
        next hnone =>
          have heq' : db.pcs.find? (activeP na) = some pc0 := heq
          obtain ⟨l1, l2, hleq, hl1, hpx, hrep⟩ := replaceFirst_decomp _ db.pcs pc0 heq'
          rw [List.find?_eq_none] at hnone
          have hpcs : ∀ pc ∈ db.pcs,
              numberP (req.new_asset_number.getD "") pc = false := by
            intro pc hmem
            by_contra hc
            have hcb : numberP (req.new_asset_number.getD "") pc = true := by
              revert hc
              cases numberP (req.new_asset_number.getD "") pc <;> simp
            exact hnone pc hmem hcb
          have hdel0 : pc0.is_deleted = false := by
            simp only [activeP, Bool.and_eq_true, Bool.not_eq_true'] at hpx
            exact hpx.2
          intro n
          show (replaceFirst (activeP na)
            (applyInfoUpdate now req (some (req.new_asset_number.getD "")))
            db.pcs).countP (activeP n) ≤ 1
          rw [hrep, List.countP_append, List.countP_cons]
          have hgP : activeP n
              (applyInfoUpdate now req (some (req.new_asset_number.getD "")) pc0) =
              (req.new_asset_number.getD "" == n) := by
            have hf := applyInfoUpdate_fields now req (some (req.new_asset_number.getD "")) pc0
            simp [activeP, hf.1, hf.2.1, hdel0]
          cases hn : (req.new_asset_number.getD "" == n) with
          | true =>
            have hn' : req.new_asset_number.getD "" = n := eq_of_beq hn
            have hz1 : l1.countP (activeP n) = 0 := by
              refine List.countP_eq_zero.mpr ?_
              intro y hy
              have hm := hpcs y (by rw [hleq]; exact List.mem_append_left _ hy)
              rw [hn'] at hm
              simp only [activeP, numberP] at hm ⊢
              simp [hm]
            have hz2 : l2.countP (activeP n) = 0 := by
              refine List.countP_eq_zero.mpr ?_
              intro y hy
              have hy' : y ∈ db.pcs := by
                rw [hleq]
                exact List.mem_append_right _ (List.mem_cons_of_mem _ hy)
              have hm := hpcs y hy'
              rw [hn'] at hm
              simp only [activeP, numberP] at hm ⊢
              simp [hm]
            rw [hz1, hz2, hgP, hn]
            simp
          | false =>
            rw [hgP, hn]
            have hcount := h n
            rw [hleq, List.countP_append, List.countP_cons] at hcount
            have hle : l1.countP (activeP n) + l2.countP (activeP n) ≤ 1 := by
              by_cases hb : activeP n pc0 = true
              · rw [if_pos hb] at hcount; omega
              · rw [if_neg hb] at hcount; omega
            simp only [Bool.false_eq_true, if_false]
            omega
      next hrename_false =>
        intro n
        show (replaceFirst (activeP na) (applyInfoUpdate now req none)
          db.pcs).countP (activeP n) ≤ 1
        rw [countP_replaceFirst_congr _ _ _ _
          (fun x => activeP_applyInfoUpdate_none n now req x)]
        exact h n
  | survey req =>
    simp only [step, complete_survey]
    split
    · exact h
    · split
      · exact h
      · intro n
        show db.pcs.countP (activeP n) ≤ 1
        exact h n
  | listPcs => exact h
  | status sd => exact h
  | history sd ed => exact h
  | deletePc na =>
    simp only [step, delete_pc]
    split
    · exact h
    · intro n
      show (replaceFirst (activeP na) (softDeleteF now) db.pcs).countP (activeP n) ≤ 1
      refine Nat.le_trans (countP_replaceFirst_le _ _ _ _ ?_) (h n)
      intro x hx
      rw [activeP_softDeleteF] at hx
      exact absurd hx (by simp)
  | backup => exact h

/-- A one-active-row store satisfies the uniqueness invariant. -/
theorem activeUnique_dbWithHist : ActiveUnique dbWithHist := by
  intro n
  rw [show dbWithHist.pcs = [pcA1] from rfl, List.countP_cons, List.countP_nil]
  split <;> omega

/-- C7: "at most one non-deleted Asset per asset_number" holds in the
empty store, is preserved by every operation of the service, and a
second RegisterAsset for an already-active number fails with Conflict
leaving the store unchanged. -/
theorem c7_at_most_one_active_per_number :
    ActiveUnique emptyDB ∧
    (∀ db now op, ActiveUnique db → ActiveUnique (step db now op)) ∧
    (∀ db now req,
      (∃ p ∈ db.pcs, p.asset_number = req.asset_number ∧ p.is_deleted = false) →
      register_pc db now req = .error .conflict ∧ step db now (Op.register req) = db) := by
  refine ⟨?_, step_preserves_activeUnique, ?_⟩
  · intro n
    simp [emptyDB]
  · rintro db now req ⟨p, hmem, hnum, hdel⟩
    have hsome : (findActive db.pcs req.asset_number).isSome := by
      rw [findActive, List.find?_isSome]
      exact ⟨p, hmem, by simp [activeP, hnum, hdel]⟩
    obtain ⟨existing, hex⟩ := Option.isSome_iff_exists.mp hsome
    have hp := List.find?_some (show db.pcs.find? (activeP req.asset_number)
      = some existing from hex)
    have hdel2 : existing.is_deleted = false := by
      simp only [activeP, Bool.and_eq_true, Bool.not_eq_true'] at hp
      exact hp.2
    constructor
    · rw [register_pc, hex]
      simp [hdel2]
    · rw [step, register_pc, hex]
      simp [hdel2, stepDB]

/-- Witness for C7 at a concrete store, operation and request. -/
theorem c7_at_most_one_active_per_number_witness :
    ActiveUnique dbWithHist ∧
    ActiveUnique (step dbWithHist ⟨1, 0⟩ (Op.deletePc "A1")) ∧
    (∃ p ∈ dbWithHist.pcs, p.asset_number = ("A1" : String) ∧ p.is_deleted = false) ∧
    register_pc dbWithHist ⟨1, 0⟩ ⟨"A1", "M9", "L9", "E9"⟩ = .error .conflict :=
  ⟨activeUnique_dbWithHist,
   c7_at_most_one_active_per_number.2.1 dbWithHist ⟨1, 0⟩ (Op.deletePc "A1")
     activeUnique_dbWithHist,
   by decide,
   (c7_at_most_one_active_per_number.2.2 dbWithHist ⟨1, 0⟩ ⟨"A1", "M9", "L9", "E9"⟩
     (by decide)).1⟩

/-- Successful outcome C6 requires of ReassignUser: one appended audit
row capturing old and new employee numbers, surveys untouched, and the
asset row afterwards showing the new employee number. -/
def ReassignOk (db : DB) (now : DateTime) (na : String)
    (req : PCUpdateUserRequest) (pc : PCMaster) : Prop :=
  ∃ db', update_user db now na req = .ok db' ∧
    db'.userChanges = db.userChanges ++
      [⟨db.nextUcId, na, pc.employee_number, req.new_employee_number, now⟩] ∧
    db'.surveys = db.surveys ∧
    ∃ pc', get_pc_info db' na = .ok pc' ∧
      pc'.employee_number = req.new_employee_number ∧
      pc'.last_updated_at = now ∧ pc'.id = pc.id ∧
      pc'.asset_number = pc.asset_number

/-- C6: ReassignUser on an active asset atomically appends exactly one
`UserChangeEvent` carrying the old and new employee numbers and updates
the asset's `employee_number` and `last_updated_at`, so `GetAsset`
afterwards returns the new employee number; on an absent or deleted
asset it fails `NotFound` and appends nothing. -/
theorem c6_reassign_user (db : DB) (now : DateTime) (na : String)
    (req : PCUpdateUserRequest) :
    (findActive db.pcs na = none →
      update_user db now na req = .error .notFound ∧
      step db now (Op.reassignUser na req) = db) ∧
    (∀ pc, findActive db.pcs na = some pc → ReassignOk db now na req pc) := by
  constructor
  · intro h
    constructor
    · simp only [update_user, h]
    · simp only [step, update_user, h, stepDB]
  · intro pc hpc
    have hfind : (replaceFirst (activeP na)
        (reassignF req.new_employee_number now) db.pcs).find? (activeP na) =
        some (reassignF req.new_employee_number now pc) := by
      rw [find?_replaceFirst_self _ _ _
        (fun x hx => by rw [activeP_reassignF]; exact hx)]
      rw [show db.pcs.find? (activeP na) = some pc from hpc]
      rfl
    simp only [ReassignOk, update_user, hpc]
    refine ⟨_, rfl, rfl, rfl, reassignF req.new_employee_number now pc,
      ?_, rfl, rfl, rfl, rfl⟩
    show get_pc_info { db with
      userChanges := db.userChanges ++
        [⟨db.nextUcId, na, pc.employee_number, req.new_employee_number, now⟩]
      nextUcId := db.nextUcId + 1
      pcs := replaceFirst (activeP na) (reassignF req.new_employee_number now) db.pcs }
      na = .ok (reassignF req.new_employee_number now pc)
    rw [get_pc_info]
    simp only [findActive]
    rw [hfind]

/-- Witness for C6 at a concrete store and request. -/
theorem c6_reassign_user_witness :
    findActive dbWithHist.pcs "A1" = some pcA1 ∧
    ReassignOk dbWithHist ⟨2, 5⟩ "A1" ⟨"E200"⟩ pcA1 :=
  ⟨by decide,
   (c6_reassign_user dbWithHist ⟨2, 5⟩ "A1" ⟨"E200"⟩).2 pcA1 (by decide)⟩

theorem find?_append_singleton (p : α → Bool) (l : List α) (x : α)
    (hx : p x = true) : ∃ y, (l ++ [x]).find? p = some y := by
  induction l with
  | nil => exact ⟨x, by simp [List.find?, hx]⟩
  | cons a as ih =>
    cases ha : p a with
    | true => exact ⟨a, by simp [List.find?_cons, ha]⟩
    | false =>
      obtain ⟨y, hy⟩ := ih
      exact ⟨y, by simp [List.find?_cons, ha, hy]⟩

theorem find?_append_singleton_none (p : α → Bool) (l : List α) (x : α)
    (h : l.find? p = none) (hx : p x = false) : (l ++ [x]).find? p = none := by
  induction l with
  | nil => simp [List.find?, hx]
  | cons a as ih =>
    rw [List.find?_cons] at h
    cases ha : p a with
    | true => rw [ha] at h; exact absurd h (by simp)
    | false =>
      rw [ha] at h
      simp only [List.cons_append, List.find?_cons, ha]
      exact ih h

/-- Successful outcome C5 requires of CompleteSurvey: exactly one new
`SurveyEvent` stamped with the current time, the other tables untouched;
a second call on the same calendar day then fails `Conflict` leaving the
survey table unchanged, and a call on a different day (with no prior
survey on that day) succeeds again. -/
def SurveyOk (db : DB) (now : DateTime) (req : SurveyCompleteRequest) : Prop :=
  ∃ db', complete_survey db now req = .ok db' ∧
    db'.surveys = db.surveys ++ [⟨db.nextSurveyId, req.asset_number, now, now⟩] ∧
    db'.pcs = db.pcs ∧ db'.userChanges = db.userChanges ∧
    (∀ now' : DateTime, now'.day = now.day →
      complete_survey db' now' req = .error .conflict ∧
      step db' now' (Op.survey req) = db') ∧
    (∀ now' : DateTime, now'.day ≠ now.day →
      db.surveys.find? (surveyOnP req.asset_number now'.day) = none →
      ∃ db'', complete_survey db' now' req = .ok db'')

/-- C5: CompleteSurvey fails `NotFound` when no non-deleted asset has
the number; fails `Conflict` (store unchanged) when a survey for that
asset already exists on the current calendar day; otherwise inserts
exactly one new `SurveyEvent` stamped with the current time — after
which a same-day repeat fails `Conflict` and a different-day call
succeeds. -/
theorem c5_complete_survey (db : DB) (now : DateTime) (req : SurveyCompleteRequest) :
    (findActive db.pcs req.asset_number = none →
      complete_survey db now req = .error .notFound ∧
      step db now (Op.survey req) = db) ∧
    (findActive db.pcs req.asset_number ≠ none →
      (db.surveys.find? (surveyOnP req.asset_number now.day) ≠ none →
        complete_survey db now req = .error .conflict ∧
        step db now (Op.survey req) = db) ∧
      (db.surveys.find? (surveyOnP req.asset_number now.day) = none →
        SurveyOk db now req)) := by
  constructor
  · intro h
    constructor
    · simp only [complete_survey, h]
    · simp only [step, complete_survey, h, stepDB]
  · intro hne
    obtain ⟨pc, hpc⟩ := Option.ne_none_iff_exists'.mp hne
    constructor
    · intro hsne
      obtain ⟨s, hs⟩ := Option.ne_none_iff_exists'.mp hsne
      constructor
      · simp only [complete_survey, hpc, hs]
      · simp only [step, complete_survey, hpc, hs, stepDB]
    · intro hsnone
      simp only [SurveyOk, complete_survey, hpc, hsnone]
      refine ⟨_, rfl, rfl, rfl, rfl, ?_, ?_⟩
      · intro now' hd
        have hx : surveyOnP req.asset_number now'.day
            (⟨db.nextSurveyId, req.asset_number, now, now⟩ : SurveyRecord) = true := by
          simp [surveyOnP, hd]
        obtain ⟨y, hy⟩ := find?_append_singleton
          (surveyOnP req.asset_number now'.day) db.surveys
          ⟨db.nextSurveyId, req.asset_number, now, now⟩ hx
        constructor
        · simp only [complete_survey, hpc]
          rw [show ((db.surveys ++ [(⟨db.nextSurveyId, req.asset_number, now, now⟩ :
            SurveyRecord)]).find? (surveyOnP req.asset_number now'.day)) = some y from hy]
        · simp only [step, complete_survey, hpc, stepDB]
          rw [show ((db.surveys ++ [(⟨db.nextSurveyId, req.asset_number, now, now⟩ :
            SurveyRecord)]).find? (surveyOnP req.asset_number now'.day)) = some y from hy]
      · intro now' hd hprev
        have hx : surveyOnP req.asset_number now'.day
            (⟨db.nextSurveyId, req.asset_number, now, now⟩ : SurveyRecord) = false := by
          have hb : (now.day == now'.day) = false := by
            rw [beq_eq_false_iff_ne]
            omega
          simp [surveyOnP, hb]
        have hynone := find?_append_singleton_none
          (surveyOnP req.asset_number now'.day) db.surveys
          ⟨db.nextSurveyId, req.asset_number, now, now⟩ hprev hx
        simp only [complete_survey, hpc]
        rw [show ((db.surveys ++ [(⟨db.nextSurveyId, req.asset_number, now, now⟩ :
          SurveyRecord)]).find? (surveyOnP req.asset_number now'.day)) = none from hynone]
        exact ⟨_, rfl⟩

/-- Witness for C5 at a concrete store, day and request. -/
theorem c5_complete_survey_witness :
    findActive dbWithHist.pcs "A1" ≠ none ∧
    dbWithHist.surveys.find? (surveyOnP "A1" 3) = none ∧
    SurveyOk dbWithHist ⟨3, 7⟩ ⟨"A1"⟩ :=
  ⟨by decide, by decide,
   ((c5_complete_survey dbWithHist ⟨3, 7⟩ ⟨"A1"⟩).2 (by decide)).2 (by decide)⟩

theorem find?_append_cons (p : α → Bool) (l1 : List α) (x : α) (l2 : List α)
    (h1 : ∀ y ∈ l1, p y = false) (hx : p x = true) :
    (l1 ++ x :: l2).find? p = some x := by
  induction l1 with
  | nil => simp [List.find?_cons, hx]
  | cons a as ih =>
    have ha := h1 a (List.mem_cons_self a as)
    simp only [List.cons_append, List.find?_cons, ha]
    exact ih (fun y hy => h1 y (List.mem_cons_of_mem _ hy))

/-- Outcome C3 requires of a successful rename from `old` to `newNum`:
every survey and user-change row referencing `old` is rewritten to
`newNum` in place (nothing else about those rows changes), no row
referencing `old` remains, `GetAsset(old)` then fails `NotFound`, and
the asset row itself — same surrogate id — now carries `newNum`. -/
def RenameOk (db : DB) (now : DateTime) (old newNum : String)
    (req : PCUpdateInfoRequest) (pc : PCMaster) : Prop :=
  ∃ db', update_pc_info db now old req = .ok db' ∧
    db'.surveys.length = db.surveys.length ∧
    db'.userChanges.length = db.userChanges.length ∧
    (∀ (i : Nat) (s : SurveyRecord), db.surveys[i]? = some s → db'.surveys[i]? =
      some (if s.asset_number == old then { s with asset_number := newNum } else s)) ∧
    (∀ (i : Nat) (u : UserChangeHistory), db.userChanges[i]? = some u → db'.userChanges[i]? =
      some (if u.asset_number == old then { u with asset_number := newNum } else u)) ∧
    (∀ s ∈ db'.surveys, s.asset_number ≠ old) ∧
    (∀ u ∈ db'.userChanges, u.asset_number ≠ old) ∧
    get_pc_info db' old = .error .notFound ∧
    (∃ pc', get_pc_info db' newNum = .ok pc' ∧ pc'.id = pc.id ∧
      pc'.asset_number = newNum)

/-- C3: renaming an active asset from `old` to a distinct non-empty
`newNum` fails with `Conflict` (store unchanged) when ANY row — deleted
or not — already carries `newNum`; otherwise, in one transaction, every
`SurveyEvent` and `UserChangeEvent` row with the old number is rewritten
to the new one and the asset row itself is renamed, after which
`GetAsset(old)` fails `NotFound`. -/
theorem c3_rename_asset (db : DB) (now : DateTime) (old newNum : String)
    (req : PCUpdateInfoRequest) (pc : PCMaster)
    (hAU : ActiveUnique db)
    (hpc : findActive db.pcs old = some pc)
    (hreq : req.new_asset_number = some newNum)
    (hneEmpty : newNum ≠ "") (hdiff : newNum ≠ old) :
    (db.pcs.find? (numberP newNum) ≠ none →
      update_pc_info db now old req = .error .conflict ∧
      step db now (Op.updateInfo old req) = db) ∧
    (db.pcs.find? (numberP newNum) = none → RenameOk db now old newNum req pc) := by
  have hb1 : (newNum == "") = false := beq_eq_false_iff_ne.mpr hneEmpty
  have hb2 : (newNum == old) = false := beq_eq_false_iff_ne.mpr hdiff
  have hpx : activeP old pc = true := List.find?_some hpc
  have hdel0 : pc.is_deleted = false := by
    simp only [activeP, Bool.and_eq_true, Bool.not_eq_true'] at hpx
    exact hpx.2
  constructor
  · intro hfne
    obtain ⟨q, hq⟩ := Option.ne_none_iff_exists'.mp hfne
    constructor
    · simp only [update_pc_info, hpc, hreq, pyTruthy, Option.getD_some, hb1, hb2,
        Bool.not_false, Bool.and_self, if_true, hq]
    · simp only [step, update_pc_info, hpc, hreq, pyTruthy, Option.getD_some, hb1, hb2,
        Bool.not_false, Bool.and_self, if_true, hq, stepDB]
  · intro hfnone
    have hnum : ∀ y ∈ db.pcs, numberP newNum y = false := by
      intro y hy
      rw [List.find?_eq_none] at hfnone
      have := hfnone y hy
      revert this
      cases numberP newNum y <;> simp
    obtain ⟨l1, l2, hleq, hl1, _, hrep⟩ :=
      replaceFirst_decomp (activeP old) db.pcs pc hpc
    have hl2 : ∀ y ∈ l2, activeP old y = false := by
      have hcount := hAU old
      rw [hleq, List.countP_append, List.countP_cons, if_pos hpx] at hcount
      have hz : l2.countP (activeP old) = 0 := by omega
      intro y hy
      have := List.countP_eq_zero.mp hz y hy
      revert this
      cases activeP old y <;> simp
    simp only [RenameOk, update_pc_info, hpc, hreq, pyTruthy, Option.getD_some, hb1, hb2,
      Bool.not_false, Bool.and_self, if_true, hfnone]
    refine ⟨_, rfl, by simp, by simp, ?_, ?_, ?_, ?_, ?_, ?_⟩
    · intro i s hs
      rw [List.getElem?_map, hs]
      rfl
    · intro i u hu
      rw [List.getElem?_map, hu]
      rfl
    · intro s hs
      obtain ⟨s0, hs0, hfs⟩ := List.mem_map.mp hs
      subst hfs
      cases hb : s0.asset_number == old with
      | true => simp [hb, hdiff]
      | false =>
        simp only [hb, Bool.false_eq_true, if_false]
        exact fun hc => absurd (beq_eq_false_iff_ne.mp hb) (fun hne2 => hne2 hc)
    · intro u hu
      obtain ⟨u0, hu0, hfu⟩ := List.mem_map.mp hu
      subst hfu
      cases hb : u0.asset_number == old with
      | true => simp [hb, hdiff]
      | false =>
        simp only [hb, Bool.false_eq_true, if_false]
        exact fun hc => absurd (beq_eq_false_iff_ne.mp hb) (fun hne2 => hne2 hc)
    · have hgP : activeP old (applyInfoUpdate now req (some newNum) pc) = false := by
        have hf := applyInfoUpdate_fields now req (some newNum) pc
        simp only [activeP, hf.1, hf.2.1, Option.getD_some]
        simp [hb2]
      have hnone2 : (replaceFirst (activeP old)
          (applyInfoUpdate now req (some newNum)) db.pcs).find? (activeP old) = none := by
        rw [hrep]
        refine List.find?_eq_none.mpr ?_
        intro x hx
        rcases List.mem_append.mp hx with hx1 | hx2
        · simp [hl1 x hx1]
        · rcases List.mem_cons.mp hx2 with rfl | hx3
          · simp [hgP]
          · simp [hl2 x hx3]
      simp only [get_pc_info, findActive]
      rw [hnone2]
    · have hf := applyInfoUpdate_fields now req (some newNum) pc
      have hgP : activeP newNum (applyInfoUpdate now req (some newNum) pc) = true := by
        simp only [activeP, hf.1, hf.2.1, Option.getD_some, hdel0]
        simp
      have hfind : (replaceFirst (activeP old)
          (applyInfoUpdate now req (some newNum)) db.pcs).find? (activeP newNum) =
          some (applyInfoUpdate now req (some newNum) pc) := by
        rw [hrep]
        refine find?_append_cons _ _ _ _ ?_ hgP
        intro y hy
        have hm := hnum y (by rw [hleq]; exact List.mem_append_left _ hy)
        simp only [numberP] at hm
        simp [activeP, hm]
      refine ⟨applyInfoUpdate now req (some newNum) pc, ?_, hf.2.2.1, ?_⟩
      · simp only [get_pc_info, findActive]
        rw [hfind]
      · rw [hf.1]
        rfl

/-- Witness for C3 at a concrete store and rename request. -/
theorem c3_rename_asset_witness :
    ActiveUnique dbWithHist ∧
    findActive dbWithHist.pcs "A1" = some pcA1 ∧
    renameToA2.new_asset_number = some "A2" ∧
    ("A2" : String) ≠ "" ∧ ("A2" : String) ≠ "A1" ∧
    dbWithHist.pcs.find? (numberP "A2") = none ∧
    RenameOk dbWithHist ⟨4, 0⟩ "A1" "A2" renameToA2 pcA1 :=
  ⟨activeUnique_dbWithHist, by decide, rfl, by decide, by decide, by decide,
   (c3_rename_asset dbWithHist ⟨4, 0⟩ "A1" "A2" renameToA2 pcA1 activeUnique_dbWithHist
     (by decide) rfl (by decide) (by decide)).2 (by decide)⟩

/-- C4's spec-side reading of `completed`: the number of distinct asset
numbers that have a survey dated the target day AND belong to a
non-deleted asset. -/
def specCompleted (db : DB) (target : Nat) : Nat :=
  (((db.surveys.filter (fun s => s.survey_date.day == target)).map
    (fun s => s.asset_number)).dedup.filter
    (fun n => db.pcs.any (activeP n))).length

/-- C4: GetSurveyStatus returns `total` = number of non-deleted assets,
`completed` = number of distinct asset numbers surveyed that day and
belonging to a non-deleted asset (a deleted asset's leftover surveys do
not count), `remaining = total - completed`, and
`completion_rate = round(completed/total*100, 2)` when `total > 0` and
`0` when `total = 0`. -/
theorem c4_survey_status (db : DB) (today : DateTime) (sd : Option Nat) :
    (get_survey_status db today sd).total =
      (db.pcs.filter (fun pc => !pc.is_deleted)).length ∧
    (get_survey_status db today sd).completed = specCompleted db (sd.getD today.day) ∧
    (get_survey_status db today sd).remaining =
      ((get_survey_status db today sd).total : Int) -
      ((get_survey_status db today sd).completed : Int) ∧
    ((get_survey_status db today sd).total = 0 →
      (get_survey_status db today sd).completion_rate = 0) ∧
    (0 < (get_survey_status db today sd).total →
      (get_survey_status db today sd).completion_rate =
        pyRound2 (((get_survey_status db today sd).completed : ℚ) /
          ((get_survey_status db today sd).total : ℚ) * 100)) := by
  refine ⟨rfl, ?_, rfl, ?_, ?_⟩
  · show (((db.surveys.filter (fun s => s.survey_date.day == sd.getD today.day &&
      db.pcs.any (activeP s.asset_number))).map (fun s => s.asset_number)).dedup).length =
      specCompleted db (sd.getD today.day)
    have hL : (((db.surveys.filter (fun s => s.survey_date.day == sd.getD today.day &&
        db.pcs.any (activeP s.asset_number))).map (fun s => s.asset_number)).dedup).Nodup :=
      List.nodup_dedup _
    have hR : ((((db.surveys.filter (fun s =>
        s.survey_date.day == sd.getD today.day)).map
        (fun s => s.asset_number)).dedup).filter
        (fun n => db.pcs.any (activeP n))).Nodup :=
      (List.nodup_dedup _).filter _
    have hmem : ∀ a,
        a ∈ ((db.surveys.filter (fun s => s.survey_date.day == sd.getD today.day &&
          db.pcs.any (activeP s.asset_number))).map (fun s => s.asset_number)).dedup ↔
        a ∈ (((db.surveys.filter (fun s =>
          s.survey_date.day == sd.getD today.day)).map
          (fun s => s.asset_number)).dedup).filter (fun n => db.pcs.any (activeP n)) := by
      intro a
      simp only [List.mem_dedup, List.mem_filter, List.mem_map, Bool.and_eq_true]
      constructor
      · rintro ⟨s, ⟨hs, hday, hany⟩, rfl⟩
        exact ⟨⟨s, ⟨hs, hday⟩, rfl⟩, hany⟩
      · rintro ⟨⟨s, ⟨hs, hday⟩, rfl⟩, hany⟩
        exact ⟨s, ⟨hs, hday, hany⟩, rfl⟩
    exact ((List.perm_ext_iff_of_nodup hL hR).mpr hmem).length_eq
  · intro h
    simp only [get_survey_status] at h ⊢
    rw [if_neg (by omega)]
    norm_num [pyRound2, roundHalfEven]
  · intro h
    simp only [get_survey_status] at h ⊢
    rw [if_pos h]

/-- A survey event for `A1` on day 3. -/
def svA1 : SurveyRecord := ⟨1, "A1", ⟨3, 2⟩, ⟨3, 2⟩⟩

/-- A store with the active `A1` and its day-3 survey. -/
def dbC4 : DB := ⟨[pcA1], [svA1], [], 2, 2, 1⟩

/-- Witness for C4 at a concrete store and date. -/
theorem c4_survey_status_witness :
    (get_survey_status dbC4 ⟨9, 9⟩ (some 3)).completed = specCompleted dbC4 3 ∧
    0 < (get_survey_status dbC4 ⟨9, 9⟩ (some 3)).total ∧
    (get_survey_status dbC4 ⟨9, 9⟩ (some 3)).completion_rate =
      pyRound2 (((get_survey_status dbC4 ⟨9, 9⟩ (some 3)).completed : ℚ) /
        ((get_survey_status dbC4 ⟨9, 9⟩ (some 3)).total : ℚ) * 100) :=
  ⟨(c4_survey_status dbC4 ⟨9, 9⟩ (some 3)).2.1, by decide,
   (c4_survey_status dbC4 ⟨9, 9⟩ (some 3)).2.2.2.2 (by decide)⟩

theorem historyRow_eq (pcs1 pcs2 : List PCMaster) (s : SurveyRecord)
    (h : (pcs1.filter (numberP s.asset_number)).map (displayOf s) =
         (pcs2.filter (numberP s.asset_number)).map (displayOf s)) :
    historyRow pcs1 s = historyRow pcs2 s := by
  unfold historyRow
  cases h1 : pcs1.filter (numberP s.asset_number) with
  | nil =>
    cases h2 : pcs2.filter (numberP s.asset_number) with
    | nil => rfl
    | cons b bs => rw [h1, h2] at h; simp at h
  | cons a as =>
    cases h2 : pcs2.filter (numberP s.asset_number) with
    | nil => rw [h1, h2] at h; simp at h
    | cons b bs => rw [h1, h2] at h; exact h

theorem filter_map_replaceFirst_softDelete (now : DateTime) (p : PCMaster → Bool)
    (pcs : List PCMaster) (s : SurveyRecord) :
    (((replaceFirst p (softDeleteF now) pcs).filter
      (numberP s.asset_number)).map (displayOf s)) =
    ((pcs.filter (numberP s.asset_number)).map (displayOf s)) := by
  induction pcs with
  | nil => rfl
  | cons a as ih =>
    simp only [replaceFirst]
    cases hp : p a with
    | false =>
      simp only [Bool.false_eq_true, if_false, List.filter_cons]
      cases hq : numberP s.asset_number a <;> simp [ih]
    | true =>
      simp only [if_true, List.filter_cons]
      have hnum : numberP s.asset_number (softDeleteF now a) =
          numberP s.asset_number a := rfl
      rw [hnum]
      cases hq : numberP s.asset_number a with
      | false => simp
      | true =>
        simp only [if_true, List.map_cons]
        rfl

theorem flatMap_congr_left (l : List α) (f g : α → List β)
    (h : ∀ x ∈ l, f x = g x) : l.flatMap f = l.flatMap g := by
  induction l with
  | nil => rfl
  | cons a as ih =>
    simp only [List.flatMap_cons, h a (List.mem_cons_self a as),
      ih (fun x hx => h x (List.mem_cons_of_mem _ hx))]

/-- C9 fails as stated: the soft delete does not change ONLY the
`is_deleted` flag — committing the UPDATE also refreshes the row's
`last_updated_at` through the column's `onupdate=datetime.utcnow`
default (src/database.py). -/
theorem c9_counterexample_delete_refreshes_last_updated :
    dbWithHist.pcs.map (fun p => (p.is_deleted, p.last_updated_at)) =
      [(false, ⟨0, 0⟩)] ∧
    (step dbWithHist ⟨5, 0⟩ (Op.deletePc "A1")).pcs.map
      (fun p => (p.is_deleted, p.last_updated_at)) = [(true, ⟨5, 0⟩)] := by
  refine ⟨by decide, by decide⟩

/-- Outcome the amended C9 requires of DeleteAsset on an active asset:
the survey and user-change tables are untouched, each asset row is
either unchanged or exactly soft-deleted (`is_deleted := true` plus the
`onupdate` refresh of `last_updated_at`), the asset disappears from
`GetAsset` and `ListAssets`, and `Backup` and `GetSurveyHistory` still
return the historical rows unchanged. -/
def DeleteOk (db : DB) (now : DateTime) (na : String) : Prop :=
  ∃ db', delete_pc db now na = .ok db' ∧
    db'.surveys = db.surveys ∧
    db'.userChanges = db.userChanges ∧
    db'.pcs.length = db.pcs.length ∧
    (∀ (i : Nat) (p : PCMaster), db.pcs[i]? = some p →
      db'.pcs[i]? = some p ∨ db'.pcs[i]? = some (softDeleteF now p)) ∧
    get_pc_info db' na = .error .notFound ∧
    (∀ e ∈ get_all_pcs db' now, e.asset_number ≠ na) ∧
    (backup_all_data db' now).surveys = db.surveys ∧
    (backup_all_data db' now).user_changes = db.userChanges ∧
    (∀ sd ed, get_survey_history db' sd ed = get_survey_history db sd ed)

/-- C9 (amended): DeleteAsset soft-deletes the row (setting `is_deleted`
and refreshing `last_updated_at`, nothing else) and leaves every
`SurveyEvent` and `UserChangeEvent` row unchanged, so the asset vanishes
from `ListAssets`/`GetAsset` while its history stays visible in
`GetSurveyHistory` and `Backup`. -/
theorem c9_delete_is_soft (db : DB) (now : DateTime) (na : String) (pc : PCMaster)
    (hAU : ActiveUnique db) (hpc : findActive db.pcs na = some pc) :
    DeleteOk db now na := by
  have hpx : activeP na pc = true := List.find?_some hpc
  obtain ⟨l1, l2, hleq, hl1, _, hrep⟩ := replaceFirst_decomp (activeP na) db.pcs pc hpc
  have hl2 : ∀ y ∈ l2, activeP na y = false := by
    have hcount := hAU na
    rw [hleq, List.countP_append, List.countP_cons, if_pos hpx] at hcount
    have hz : l2.countP (activeP na) = 0 := by omega
    intro y hy
    have := List.countP_eq_zero.mp hz y hy
    revert this
    cases activeP na y <;> simp
  have hnone2 : (replaceFirst (activeP na) (softDeleteF now) db.pcs).find?
      (activeP na) = none := by
    rw [hrep]
    refine List.find?_eq_none.mpr ?_
    intro x hx
    rcases List.mem_append.mp hx with hx1 | hx2
    · simp [hl1 x hx1]
    · rcases List.mem_cons.mp hx2 with rfl | hx3
      · simp [activeP_softDeleteF]
      · simp [hl2 x hx3]
  have hall : ∀ y ∈ replaceFirst (activeP na) (softDeleteF now) db.pcs,
      activeP na y = false := by
    intro y hy
    have := List.find?_eq_none.mp hnone2 y hy
    revert this
    cases activeP na y <;> simp
  simp only [DeleteOk, delete_pc, hpc]
  refine ⟨_, rfl, rfl, rfl, replaceFirst_length _ _ _, ?_, ?_, ?_, rfl, rfl, ?_⟩
  · intro i p hp
    rcases replaceFirst_getElem? (activeP na) (softDeleteF now) db.pcs i with hi | hi
    · left; rw [hi, hp]
    · right; rw [hi, hp]; rfl
  · simp only [get_pc_info, findActive]
    rw [hnone2]
  · intro e he
    simp only [get_all_pcs, List.mem_map, List.mem_filter] at he
    obtain ⟨q, ⟨hqmem, hqact⟩, rfl⟩ := he
    have hq := hall q hqmem
    simp only [activeP, Bool.and_eq_true] at hq
    intro hc
    have hc' : q.asset_number = na := hc
    rw [hc'] at hq
    simp [hqact] at hq
  · intro sd ed
    cases sd with
    | none => rfl
    | some s =>
      cases ed with
      | none => rfl
      | some e =>
        simp only [get_survey_history]
        refine congrArg Except.ok ?_
        exact flatMap_congr_left _ _ _ (fun x _ => historyRow_eq _ _ _
          (filter_map_replaceFirst_softDelete now (activeP na) db.pcs x))

/-- Witness for C9 (amended) at a concrete store. -/
theorem c9_delete_is_soft_witness :
    ActiveUnique dbWithHist ∧
    findActive dbWithHist.pcs "A1" = some pcA1 ∧
    DeleteOk dbWithHist ⟨5, 0⟩ "A1" :=
  ⟨activeUnique_dbWithHist, by decide,
   c9_delete_is_soft dbWithHist ⟨5, 0⟩ "A1" pcA1 activeUnique_dbWithHist (by decide)⟩

/-- A truthy optional string is not the empty string. -/
theorem pyTruthy_getD_ne (o : Option String) (h : pyTruthy o = true) :
    o.getD "" ≠ "" := by
  cases o with
  | none => simp [pyTruthy] at h
  | some s =>
    simp only [pyTruthy] at h
    simp only [Option.getD_some]
    exact beq_eq_false_iff_ne.mp (by revert h; cases s == "" <;> simp)

/-- `applyInfoUpdate` only reads the request through the truthiness and
value of its three plain fields. -/
theorem applyInfoUpdate_congr (now : DateTime) (req1 req2 : PCUpdateInfoRequest)
    (ha : pyTruthy req1.pc_management_number = pyTruthy req2.pc_management_number)
    (hb : req1.pc_management_number.getD "" = req2.pc_management_number.getD "")
    (hc : pyTruthy req1.location_name = pyTruthy req2.location_name)
    (hd : req1.location_name.getD "" = req2.location_name.getD "")
    (he : pyTruthy req1.employee_number = pyTruthy req2.employee_number)
    (hf : req1.employee_number.getD "" = req2.employee_number.getD "") :
    ∀ (r : Option String) (pc : PCMaster),
      applyInfoUpdate now req1 r pc = applyInfoUpdate now req2 r pc := by
  intro r pc
  simp only [applyInfoUpdate, ha, hb, hc, hd, he, hf]

/-- `update_pc_info` only reads the request through the truthiness and
values of its fields. -/
theorem update_pc_info_congr (db : DB) (now : DateTime) (na : String)
    (req1 req2 : PCUpdateInfoRequest)
    (h1 : req1.new_asset_number.getD "" = req2.new_asset_number.getD "")
    (h2 : pyTruthy req1.new_asset_number = pyTruthy req2.new_asset_number)
    (h3 : ∀ (r : Option String) (pc : PCMaster),
      applyInfoUpdate now req1 r pc = applyInfoUpdate now req2 r pc) :
    update_pc_info db now na req1 = update_pc_info db now na req2 := by
  have h3' : applyInfoUpdate now req1 = applyInfoUpdate now req2 :=
    funext fun r => funext fun pc => h3 r pc
  simp only [update_pc_info, h1, h2, h3']

/-- C10: passing the empty string for `pc_management_number`,
`location_name`, `employee_number` or `new_asset_number` behaves exactly
like omitting the field (Python truthiness), and consequently a
successful `UpdateAssetInfo` never writes the empty string into any
field of any asset row. -/
theorem c10_empty_string_fields_ignored (db : DB) (now : DateTime) (na : String)
    (req : PCUpdateInfoRequest) :
    (update_pc_info db now na { req with pc_management_number := some "" } =
      update_pc_info db now na { req with pc_management_number := none }) ∧
    (update_pc_info db now na { req with location_name := some "" } =
      update_pc_info db now na { req with location_name := none }) ∧
    (update_pc_info db now na { req with employee_number := some "" } =
      update_pc_info db now na { req with employee_number := none }) ∧
    (update_pc_info db now na { req with new_asset_number := some "" } =
      update_pc_info db now na { req with new_asset_number := none }) ∧
    (∀ db', update_pc_info db now na req = .ok db' →
      ∀ (i : Nat) (p p' : PCMaster), db.pcs[i]? = some p → db'.pcs[i]? = some p' →
        (p'.asset_number = p.asset_number ∨ p'.asset_number ≠ "") ∧
        (p'.pc_management_number = p.pc_management_number ∨
          p'.pc_management_number ≠ "") ∧
        (p'.location_name = p.location_name ∨ p'.location_name ≠ "") ∧
        (p'.employee_number = p.employee_number ∨ p'.employee_number ≠ "")) := by
  refine ⟨?_, ?_, ?_, ?_, ?_⟩
  · exact update_pc_info_congr db now na _ _ rfl rfl
      (applyInfoUpdate_congr now _ _ (by simp [pyTruthy]) rfl rfl rfl rfl rfl)
  · exact update_pc_info_congr db now na _ _ rfl rfl
      (applyInfoUpdate_congr now _ _ rfl rfl (by simp [pyTruthy]) rfl rfl rfl)
  · exact update_pc_info_congr db now na _ _ rfl rfl
      (applyInfoUpdate_congr now _ _ rfl rfl rfl rfl (by simp [pyTruthy]) rfl)
  · exact update_pc_info_congr db now na _ _ rfl (by simp [pyTruthy])
      (applyInfoUpdate_congr now _ _ rfl rfl rfl rfl rfl rfl)
  · intro db' hok i p p' hp hp'
    simp only [update_pc_info] at hok
    cases hfa : findActive db.pcs na with
    | none =>
      simp only [hfa] at hok
      exact Except.noConfusion hok
    | some pc0 =>
      simp only [hfa] at hok
      have main : ∀ r : Option String,
          (r = none ∨ (r = some (req.new_asset_number.getD "") ∧
            pyTruthy req.new_asset_number = true)) →
          db'.pcs = replaceFirst (activeP na) (applyInfoUpdate now req r) db.pcs →
          (p'.asset_number = p.asset_number ∨ p'.asset_number ≠ "") ∧
          (p'.pc_management_number = p.pc_management_number ∨
            p'.pc_management_number ≠ "") ∧
          (p'.location_name = p.location_name ∨ p'.location_name ≠ "") ∧
          (p'.employee_number = p.employee_number ∨ p'.employee_number ≠ "") := by
        intro r hr hpcs
        rcases replaceFirst_getElem? (activeP na) (applyInfoUpdate now req r) db.pcs i
          with hi | hi
        · rw [hpcs, hi, hp] at hp'
          injection hp' with hpp
          subst hpp
          exact ⟨Or.inl rfl, Or.inl rfl, Or.inl rfl, Or.inl rfl⟩
        · rw [hpcs, hi, hp] at hp'
          have hpp : applyInfoUpdate now req r p = p' := by simpa using hp'
          subst hpp
          have hfld := applyInfoUpdate_fields now req r p
          refine ⟨?_, ?_, ?_, ?_⟩
          · rcases hr with rfl | ⟨rfl, htr⟩
            · left; exact hfld.1
            · right
              rw [hfld.1, Option.getD_some]
              exact pyTruthy_getD_ne _ htr
          · by_cases ht : pyTruthy req.pc_management_number = true
            · right
              rw [hfld.2.2.2.2.2.1, if_pos ht]
              exact pyTruthy_getD_ne _ ht
            · left
              rw [hfld.2.2.2.2.2.1, if_neg ht]
          · by_cases ht : pyTruthy req.location_name = true
            · right
              rw [hfld.2.2.2.2.2.2.1, if_pos ht]
              exact pyTruthy_getD_ne _ ht
            · left
              rw [hfld.2.2.2.2.2.2.1, if_neg ht]
          · by_cases ht : pyTruthy req.employee_number = true
            · right
              rw [hfld.2.2.2.2.2.2.2, if_pos ht]
              exact pyTruthy_getD_ne _ ht
            · left
              rw [hfld.2.2.2.2.2.2.2, if_neg ht]
      split at hok
      next hg =>
        split at hok
        next => exact Except.noConfusion hok
        next =>
          have hdb := Except.ok.inj hok
          refine main (some (req.new_asset_number.getD "")) ?_ ?_
          · rw [Bool.and_eq_true] at hg
            exact Or.inr ⟨rfl, hg.1⟩
          · rw [← hdb]
      next hg =>
        have hdb := Except.ok.inj hok
        refine main none (Or.inl rfl) ?_
        rw [← hdb]

/-- An info update request leaving every field out. -/
def infoReqBase : PCUpdateInfoRequest := {}

/-- An info update request setting only the management number. -/
def infoReqM2 : PCUpdateInfoRequest := { pc_management_number := some "M2" }

/-- The `A1` row after `infoReqM2` is applied on day 6. -/
def pcA1upd : PCMaster := ⟨1, "A1", "M2", "L1", "E1", ⟨0, 0⟩, ⟨6, 0⟩, false⟩

/-- The store after `infoReqM2` is applied to `dbWithHist` on day 6. -/
def dbAfterInfo : DB := ⟨[pcA1upd], [], [ucA1], 2, 1, 2⟩

/-- Witness for C10 at a concrete store and requests. -/
theorem c10_empty_string_fields_ignored_witness :
    (update_pc_info dbWithHist ⟨6, 0⟩ "A1"
        { infoReqBase with pc_management_number := some "" } =
      update_pc_info dbWithHist ⟨6, 0⟩ "A1"
        { infoReqBase with pc_management_number := none }) ∧
    update_pc_info dbWithHist ⟨6, 0⟩ "A1" infoReqM2 = .ok dbAfterInfo ∧
    dbWithHist.pcs[0]? = some pcA1 ∧ dbAfterInfo.pcs[0]? = some pcA1upd ∧
    ((pcA1upd.asset_number = pcA1.asset_number ∨ pcA1upd.asset_number ≠ "") ∧
     (pcA1upd.pc_management_number = pcA1.pc_management_number ∨
       pcA1upd.pc_management_number ≠ "") ∧
     (pcA1upd.location_name = pcA1.location_name ∨ pcA1upd.location_name ≠ "") ∧
     (pcA1upd.employee_number = pcA1.employee_number ∨
       pcA1upd.employee_number ≠ "")) :=
  ⟨(c10_empty_string_fields_ignored dbWithHist ⟨6, 0⟩ "A1" infoReqBase).1,
   rfl, by decide, by decide,
   (c10_empty_string_fields_ignored dbWithHist ⟨6, 0⟩ "A1" infoReqM2).2.2.2.2
     dbAfterInfo rfl 0 pcA1 pcA1upd (by decide) (by decide)⟩

/-- The single row a survey event contributes to the history join when
asset numbers are globally unique: the matched asset's display data, or
the placeholders `"-"` / `"정보 없음"` / `"-"` when no asset matches. -/
def joinEntry (pcs : List PCMaster) (s : SurveyRecord) : HistoryEntry :=
  match pcs.find? (numberP s.asset_number) with
  | some p => displayOf s p
  | none => ⟨s.survey_date, s.asset_number, "-", "정보 없음", "-"⟩

theorem joinEntry_survey_date (pcs : List PCMaster) (s : SurveyRecord) :
    (joinEntry pcs s).survey_date = s.survey_date := by
  unfold joinEntry
  cases pcs.find? (numberP s.asset_number) <;> rfl

theorem find?_eq_head?_filter (p : α → Bool) (l : List α) :
    l.find? p = (l.filter p).head? := by
  induction l with
  | nil => rfl
  | cons a as ih =>
    rw [List.find?_cons, List.filter_cons]
    cases ha : p a
    · exact ih
    · rfl

theorem filter_numberP_length_le (pcs : List PCMaster) (n : String)
    (h : (pcs.map (fun p => p.asset_number)).Nodup) :
    (pcs.filter (numberP n)).length ≤ 1 := by
  induction pcs with
  | nil => simp
  | cons a as ih =>
    rw [List.map_cons, List.nodup_cons] at h
    rw [List.filter_cons]
    cases ha : numberP n a with
    | false => simpa using ih h.2
    | true =>
      have han : a.asset_number = n := eq_of_beq (by simpa [numberP] using ha)
      have hz : as.filter (numberP n) = [] := by
        rw [List.filter_eq_nil_iff]
        intro y hy hcy
        have hyn : y.asset_number = n := eq_of_beq (by simpa [numberP] using hcy)
        exact h.1 (List.mem_map.mpr ⟨y, hy, hyn.trans han.symm⟩)
      simp [hz]

theorem historyRow_eq_joinEntry (pcs : List PCMaster) (s : SurveyRecord)
    (h : (pcs.map (fun p => p.asset_number)).Nodup) :
    historyRow pcs s = [joinEntry pcs s] := by
  unfold historyRow joinEntry
  rw [find?_eq_head?_filter]
  cases hf : pcs.filter (numberP s.asset_number) with
  | nil => rfl
  | cons m ms =>
    have hlen := filter_numberP_length_le pcs s.asset_number h
    rw [hf] at hlen
    have hms : ms = [] := by
      rw [List.length_cons] at hlen
      exact List.eq_nil_of_length_eq_zero (by omega)
    subst hms
    rfl

theorem flatMap_singleton_eq_map (l : List α) (f : α → List β) (g : α → β)
    (h : ∀ x ∈ l, f x = [g x]) : l.flatMap f = l.map g := by
  induction l with
  | nil => rfl
  | cons a as ih =>
    rw [List.flatMap_cons, h a (List.mem_cons_self a as), List.map_cons,
      ih (fun x hx => h x (List.mem_cons_of_mem _ hx))]
    rfl

/-- What C8 requires of a successful history query over `[s, e]`: one
output row per survey event in range, membership characterised by the
inclusive date range and the join, ordered by survey timestamp
descending. -/
def HistoryOk (db : DB) (s e : Nat) : Prop :=
  ∃ out, get_survey_history db (some s) (some e) = .ok out ∧
    out.length = (db.surveys.filter (fun sv =>
      Nat.ble s sv.survey_date.day && Nat.ble sv.survey_date.day e)).length ∧
    (∀ entry, entry ∈ out ↔ ∃ sv ∈ db.surveys,
      s ≤ sv.survey_date.day ∧ sv.survey_date.day ≤ e ∧
      entry = joinEntry db.pcs sv) ∧
    out.Pairwise (fun a b => dtGe a.survey_date b.survey_date = true)

/-- C8: GetSurveyHistory fails `InvalidArgument` whenever either date
fails to parse; on parsed dates it returns exactly the survey events
whose date lies in the inclusive range, ordered by survey timestamp
descending, each joined to its asset's data with the placeholders
`"-"` / `"정보 없음"` substituted when no asset row matches. -/
theorem c8_survey_history (db : DB)
    (hnd : (db.pcs.map (fun p => p.asset_number)).Nodup) :
    (∀ sd ed : Option Nat, (sd = none ∨ ed = none) →
      get_survey_history db sd ed = .error .invalidArgument) ∧
    (∀ s e : Nat, HistoryOk db s e) ∧
    (∀ sv : SurveyRecord, db.pcs.find? (numberP sv.asset_number) = none →
      joinEntry db.pcs sv = ⟨sv.survey_date, sv.asset_number, "-", "정보 없음", "-"⟩) ∧
    (∀ (sv : SurveyRecord) (p : PCMaster),
      db.pcs.find? (numberP sv.asset_number) = some p →
      joinEntry db.pcs sv = displayOf sv p) := by
  refine ⟨?_, ?_, ?_, ?_⟩
  · intro sd ed h
    rcases h with rfl | rfl
    · rfl
    · cases sd <;> rfl
  · intro s e
    have htrans : ∀ a b c : SurveyRecord,
        dtGe a.survey_date b.survey_date = true →
        dtGe b.survey_date c.survey_date = true →
        dtGe a.survey_date c.survey_date = true :=
      fun a b c hab hbc => dtGe_trans _ _ _ hab hbc
    have htotal : ∀ a b : SurveyRecord,
        dtGe a.survey_date b.survey_date = true ∨
        dtGe b.survey_date a.survey_date = true :=
      fun a b => dtGe_total _ _
    have hout : get_survey_history db (some s) (some e) =
        .ok ((sortBy (fun a b => dtGe a.survey_date b.survey_date)
          (db.surveys.filter (fun sv =>
            Nat.ble s sv.survey_date.day && Nat.ble sv.survey_date.day e))).map
          (joinEntry db.pcs)) := by
      simp only [get_survey_history]
      refine congrArg Except.ok ?_
      exact flatMap_singleton_eq_map _ _ _
        (fun x _ => historyRow_eq_joinEntry db.pcs x hnd)
    have hperm := sortBy_perm (fun a b : SurveyRecord =>
      dtGe a.survey_date b.survey_date)
      (db.surveys.filter (fun sv =>
        Nat.ble s sv.survey_date.day && Nat.ble sv.survey_date.day e))
    refine ⟨_, hout, ?_, ?_, ?_⟩
    · rw [List.length_map]
      exact hperm.length_eq
    · intro entry
      rw [List.mem_map]
      constructor
      · rintro ⟨sv, hsv, rfl⟩
        have hsv' := hperm.mem_iff.mp hsv
        rw [List.mem_filter, Bool.and_eq_true, Nat.ble_eq, Nat.ble_eq] at hsv'
        exact ⟨sv, hsv'.1, hsv'.2.1, hsv'.2.2, rfl⟩
      · rintro ⟨sv, hsv, h1, h2, rfl⟩
        refine ⟨sv, ?_, rfl⟩
        rw [hperm.mem_iff, List.mem_filter, Bool.and_eq_true, Nat.ble_eq, Nat.ble_eq]
        exact ⟨hsv, h1, h2⟩
    · rw [List.pairwise_map]
      refine (sortBy_pairwise _ htrans htotal _).imp ?_
      intro a b hab
      rw [joinEntry_survey_date, joinEntry_survey_date]
      exact hab
  · intro sv hnone
    unfold joinEntry
    rw [hnone]
  · intro sv p hp
    unfold joinEntry
    rw [hp]

/-- Witness for C8 at a concrete store and dates. -/
theorem c8_survey_history_witness :
    (dbC4.pcs.map (fun p => p.asset_number)).Nodup ∧
    get_survey_history dbC4 none (some 3) = .error .invalidArgument ∧
    HistoryOk dbC4 0 9 :=
  ⟨by decide,
   (c8_survey_history dbC4 (by decide)).1 none (some 3) (Or.inl rfl),
   (c8_survey_history dbC4 (by decide)).2.1 0 9⟩
